import Mathlib

/-!
Verification of the switchcal calendar application core against its
natural-language specification.

The development shallowly embeds the Go sources:
* `pkg/calendar` (entity model and the SQLite store semantics),
* `pkg/providers/caldav` (iCalendar codec),
* `pkg/providers/google` (Google REST event mapping),
* the main package (sync orchestrator, OAuth listener, first-run bootstrap).

Instants are modelled as seconds on an integer timeline (a fixed-offset
location, no DST); wire formats are modelled structurally rather than as
byte strings.
-/

namespace Switchcal

/-- Event entity (pkg/calendar: `Event` / the `events` table row).
Times are seconds since the model epoch; `recurrence` and `reminders`
hold the serialized JSON blobs exactly as the columns store them. -/
structure Event where
  id : String
  calendarID : String
  uid : String
  title : String
  description : String
  location : String
  startTime : Int
  endTime : Int
  allDay : Bool
  color : String
  recurrence : String
  reminders : String
  created : Int
  modified : Int
  etag : String
  status : String
  cancelled : Bool
deriving Repr, DecidableEq

/-- Calendar entity (pkg/calendar: `Calendar` / the `calendars` table row). -/
structure Calendar where
  id : String
  accountID : String
  name : String
  description : String
  color : String
  visible : Bool
  readOnly : Bool
  syncToken : String
  lastSync : Int
deriving Repr, DecidableEq

/-- Account entity (pkg/calendar: `Account` / the `accounts` table row). -/
structure Account where
  id : String
  name : String
  accountType : String
  email : String
  enabled : Bool
  serverURL : String
  username : String
  accessToken : String
  refreshToken : String
  tokenExpiry : Int
  appPassword : String
  lastSync : Int
deriving Repr, DecidableEq

/-- The three tables of the SQLite database (store.go `migrate`). -/
structure Store where
  accounts : List Account
  calendars : List Calendar
  events : List Event
deriving Repr, DecidableEq

/-- Semantics of `INSERT ... ON CONFLICT(id) DO UPDATE SET ...` on a table
whose primary key is `key`: when a row with the same key exists it is
updated in place (all non-key fields overwritten), otherwise the new row
is appended.  Used by SaveAccount, SaveCalendar and SaveEvent. -/
def upsertBy (key : α → String) (row : α) (l : List α) : List α :=
  if l.any (fun r => key r == key row) then
    l.map (fun r => if key r == key row then row else r)
  else
    l ++ [row]

/-- store.go `SaveAccount`: upsert on the accounts table. -/
def Store.saveAccount (st : Store) (a : Account) : Store :=
  { st with accounts := upsertBy (fun r => r.id) a st.accounts }

/-- store.go `SaveCalendar`: upsert on the calendars table. -/
def Store.saveCalendar (st : Store) (c : Calendar) : Store :=
  { st with calendars := upsertBy (fun r => r.id) c st.calendars }

/-- store.go `SaveEvent`: upsert on the events table. -/
def Store.saveEvent (st : Store) (e : Event) : Store :=
  { st with events := upsertBy (fun r => r.id) e st.events }

/-- store.go `DeleteAccount` (`DELETE FROM accounts WHERE id = ?`) with the
schema foreign keys: `calendars.account_id ... ON DELETE CASCADE` removes
the calendars of the account, and `events.calendar_id ... ON DELETE CASCADE`
removes the events of those calendars. -/
def Store.deleteAccount (st : Store) (accID : String) : Store :=
  { accounts := st.accounts.filter (fun a => !(a.id == accID)),
    calendars := st.calendars.filter (fun c => !(c.accountID == accID)),
    events := st.events.filter (fun e =>
      !(st.calendars.any (fun c => c.id == e.calendarID && c.accountID == accID))) }

/-- store.go `DeleteCalendar` (`DELETE FROM calendars WHERE id = ?`) with
the `events.calendar_id ... ON DELETE CASCADE` foreign key. -/
def Store.deleteCalendar (st : Store) (calID : String) : Store :=
  { st with
    calendars := st.calendars.filter (fun c => !(c.id == calID)),
    events := st.events.filter (fun e => !(e.calendarID == calID)) }

/-- store.go `DeleteEvent`. -/
def Store.deleteEvent (st : Store) (eventID : String) : Store :=
  { st with events := st.events.filter (fun e => !(e.id == eventID)) }

/-- Status normalization performed by store.go `scanEvent` / `scanEvents`:
an empty status column is read back as `confirmed`. -/
def scanStatus (e : Event) : Event :=
  if e.status = "" then { e with status := "confirmed" } else e

/-- store.go `GetEvent`: look the row up by id and scan it. -/
def Store.getEvent (st : Store) (eventID : String) : Option Event :=
  (st.events.find? (fun e => e.id == eventID)).map scanStatus

/-- Comparison used by `ORDER BY e.start_time`. -/
def startLE (a b : Event) : Prop := a.startTime ≤ b.startTime

instance : DecidableRel startLE := fun a b =>
  inferInstanceAs (Decidable (a.startTime ≤ b.startTime))

instance : IsTotal Event startLE := ⟨fun a b => Int.le_total a.startTime b.startTime⟩

instance : IsTrans Event startLE := ⟨fun _ _ _ hab hbc => le_trans hab hbc⟩

/-- store.go `GetEventsByCalendar`:
`WHERE calendar_id = ? AND cancelled = 0 ORDER BY start_time`, rows scanned. -/
def Store.getEventsByCalendar (st : Store) (calID : String) : List Event :=
  (List.insertionSort startLE
    (st.events.filter (fun e => e.calendarID == calID && !e.cancelled))).map scanStatus

/-- store.go `GetEventsInRange`: join with calendars,
`WHERE c.visible = 1 AND e.cancelled = 0 AND e.start_time < end AND
e.end_time > start ORDER BY e.start_time`, rows scanned. -/
def Store.getEventsInRange (st : Store) (startT endT : Int) : List Event :=
  (List.insertionSort startLE
    (st.events.filter (fun e =>
      st.calendars.any (fun c => c.id == e.calendarID && c.visible) &&
      (!e.cancelled && (decide (e.startTime < endT) && decide (startT < e.endTime)))))).map
    scanStatus

/-- Midnight of the day containing `t` (Go
`time.Date(date.Year(), date.Month(), date.Day(), 0, 0, 0, 0, loc)`
in a fixed-offset location). -/
def dayStart (t : Int) : Int := t - t % 86400

/-- store.go `GetEventsForDate`: the range query from local midnight to
midnight plus 24 hours. -/
def Store.getEventsForDate (st : Store) (date : Int) : List Event :=
  st.getEventsInRange (dayStart date) (dayStart date + 86400)

/-- Visibility of the owning calendar, as the SQL join expresses it. -/
def calendarVisible (st : Store) (e : Event) : Prop :=
  ∃ c ∈ st.calendars, c.id = e.calendarID ∧ c.visible = true

/-- The empty database. -/
def emptyStore : Store := ⟨[], [], []⟩

/-- A sample local account. -/
def accA : Account :=
  { id := "acc-1", name := "First", accountType := "local", email := "",
    enabled := true, serverURL := "", username := "", accessToken := "",
    refreshToken := "", tokenExpiry := 0, appPassword := "", lastSync := 0 }

/-- The same identifier as `accA` with a different display name. -/
def accB : Account := { accA with name := "Second" }

/-- The calendar holding the June example event. -/
def juneCalendar : Calendar :=
  { id := "cal-june", accountID := "acc-1", name := "Main", description := "",
    color := "#4285f4", visible := true, readOnly := false, syncToken := "",
    lastSync := 0 }

/-- An event from 2024-06-10T23:00 to 2024-06-11T01:00, with the model
epoch at 2024-01-01T00:00 (June 10 is day 161, June 11 is day 162). -/
def juneEvent : Event :=
  { id := "evt-june", calendarID := "cal-june", uid := "evt-june",
    title := "Late show", description := "", location := "",
    startTime := 161 * 86400 + 23 * 3600, endTime := 162 * 86400 + 3600,
    allDay := false, color := "", recurrence := "null", reminders := "null",
    created := 0, modified := 0, etag := "", status := "confirmed",
    cancelled := false }

/-- A store holding the June example event on a visible calendar. -/
def juneStore : Store := ⟨[accA], [juneCalendar], [juneEvent]⟩

/-- Value of a date property: date-only (written with parameter VALUE=DATE)
or a date-time with second precision. -/
inductive ICalTimeValue
  | dateOnly (day : Int)
  | dateTime (sec : Int)
deriving Repr, DecidableEq

/-- Day number of the civil date containing the instant `t`. -/
def dayOf (t : Int) : Int := dayStart t / 86400

/-- Result of `prop.DateTime` on a date property: a date-only value parses
to local midnight of that day. -/
def ICalTimeValue.instant : ICalTimeValue → Int
  | .dateOnly d => 86400 * d
  | .dateTime s => s

/-- Detection of the VALUE=DATE parameter. -/
def ICalTimeValue.isDate : ICalTimeValue → Bool
  | .dateOnly _ => true
  | .dateTime _ => false

/-- A VEVENT component: exactly the properties the codec reads or writes. -/
structure VEvent where
  uid : Option String
  summary : Option String
  description : Option String
  location : Option String
  dtstart : Option ICalTimeValue
  dtend : Option ICalTimeValue
  dtstamp : Option ICalTimeValue
  createdProp : Option ICalTimeValue
  lastModified : Option ICalTimeValue
  status : Option String
deriving Repr, DecidableEq

/-- A child component of a VCALENDAR object. -/
inductive ICalComponent
  | vevent (v : VEvent)
  | other (name : String)
deriving Repr, DecidableEq

/-- A VCALENDAR object. -/
structure ICalCalendar where
  version : String
  productID : String
  children : List ICalComponent
deriving Repr, DecidableEq

/-- A CalDAV calendar object: the payload (nil when the fetch returned no
data) and the entity tag of the enclosing object. -/
structure CalendarObject where
  data : Option ICalCalendar
  etag : String
deriving Repr, DecidableEq

/-- caldav.go `eventToICal`: one VEVENT inside a VCALENDAR with version
2.0; description and location only when nonempty; start and end written
date-only when the all-day flag is set, else as full date-times; a stamp
set to the encode instant; status mapped from the three known values. -/
def eventToICal (now : Int) (e : Event) : ICalCalendar :=
  { version := "2.0", productID := "-//UniCal//EN",
    children := [ICalComponent.vevent
      { uid := some e.uid,
        summary := some e.title,
        description := if e.description = "" then none else some e.description,
        location := if e.location = "" then none else some e.location,
        dtstart := some (if e.allDay then ICalTimeValue.dateOnly (dayOf e.startTime)
          else ICalTimeValue.dateTime e.startTime),
        dtend := some (if e.allDay then ICalTimeValue.dateOnly (dayOf e.endTime)
          else ICalTimeValue.dateTime e.endTime),
        dtstamp := some (ICalTimeValue.dateTime now),
        createdProp := none,
        lastModified := none,
        status :=
          if e.status = "confirmed" then some "CONFIRMED"
          else if e.status = "tentative" then some "TENTATIVE"
          else if e.status = "cancelled" then some "CANCELLED"
          else none }] }

/-- caldav.go `parseICalEvent`: fails when the object has no data or no
VEVENT child; otherwise populates an event from the first VEVENT, taking
the UID as both identifier and uid, reading the all-day flag from the
VALUE=DATE parameter of DTSTART, and mapping the STATUS property (a
CANCELLED status also sets the cancelled flag). -/
def parseICalEvent (obj : CalendarObject) (calendarID : String) : Option Event :=
  match obj.data with
  | none => none
  | some cal =>
    match cal.children.findSome? (fun c =>
        match c with
        | ICalComponent.vevent v => some v
        | ICalComponent.other _ => none) with
    | none => none
    | some v =>
      let ev : Event :=
        { id := "", calendarID := calendarID, uid := "", title := "",
          description := "", location := "", startTime := 0, endTime := 0,
          allDay := false, color := "", recurrence := "", reminders := "",
          created := 0, modified := 0, etag := obj.etag,
          status := "confirmed", cancelled := false }
      let ev := match v.uid with
        | some u => { ev with uid := u, id := u }
        | none => ev
      let ev := match v.summary with
        | some s => { ev with title := s }
        | none => ev
      let ev := match v.description with
        | some s => { ev with description := s }
        | none => ev
      let ev := match v.location with
        | some s => { ev with location := s }
        | none => ev
      let ev := match v.dtstart with
        | some t =>
          let x := { ev with startTime := t.instant }
          if t.isDate then { x with allDay := true } else x
        | none => ev
      let ev := match v.dtend with
        | some t => { ev with endTime := t.instant }
        | none => ev
      let ev := match v.createdProp with
        | some t => { ev with created := t.instant }
        | none => ev
      let ev := match v.lastModified with
        | some t => { ev with modified := t.instant }
        | none => ev
      let ev := match v.status with
        | some s =>
          if s = "CONFIRMED" then { ev with status := "confirmed" }
          else if s = "TENTATIVE" then { ev with status := "tentative" }
          else if s = "CANCELLED" then { ev with status := "cancelled", cancelled := true }
          else ev
        | none => ev
      some ev

/-- A start or end field of a Google events response item, with the
RFC3339 or date-only string already parsed. -/
inductive GTimeField
  | dateTime (sec : Int)
  | dateOnly (day : Int)
  | absent
deriving Repr, DecidableEq

/-- An item of the Google Calendar events endpoint response. -/
structure GoogleEventItem where
  id : String
  summary : String
  description : String
  location : String
  status : String
  startField : GTimeField
  endField : GTimeField
deriving Repr, DecidableEq

/-- Application of a parsed start field: a dateTime sets the start, a
date-only value sets the start to midnight and marks the event all-day. -/
def applyStartField (ev : Event) : GTimeField → Event
  | GTimeField.dateTime s => { ev with startTime := s }
  | GTimeField.dateOnly d => { ev with startTime := 86400 * d, allDay := true }
  | GTimeField.absent => ev

/-- Application of a parsed end field (no all-day marking). -/
def applyEndField (ev : Event) : GTimeField → Event
  | GTimeField.dateTime s => { ev with endTime := s }
  | GTimeField.dateOnly d => { ev with endTime := 86400 * d }
  | GTimeField.absent => ev

/-- google.go `GetEvents` item mapping: every item is mapped; the status
switch sets confirmed, tentative, or cancelled with the cancelled flag
(an unknown status leaves the zero value). -/
def googleRESTMapItem (calendarID : String) (item : GoogleEventItem) : Event :=
  let ev : Event :=
    { id := item.id, calendarID := calendarID, uid := item.id,
      title := item.summary, description := item.description,
      location := item.location, startTime := 0, endTime := 0,
      allDay := false, color := "", recurrence := "", reminders := "",
      created := 0, modified := 0, etag := "", status := "", cancelled := false }
  let ev := applyStartField ev item.startField
  let ev := applyEndField ev item.endField
  if item.status = "confirmed" then { ev with status := "confirmed" }
  else if item.status = "tentative" then { ev with status := "tentative" }
  else if item.status = "cancelled" then { ev with status := "cancelled", cancelled := true }
  else ev

/-- google.go `GetEvents`: maps every response item into an event,
cancelled ones included. -/
def googleGetEvents (calendarID : String) (items : List GoogleEventItem) : List Event :=
  items.map (googleRESTMapItem calendarID)

/-- Orchestrator `fetchGoogleEvents` item mapping: status is always set
to confirmed, the cancelled flag is never set. -/
def fetchGoogleMapItem (calendarID : String) (item : GoogleEventItem) : Event :=
  let ev : Event :=
    { id := item.id, calendarID := calendarID, uid := item.id,
      title := item.summary, description := item.description,
      location := item.location, startTime := 0, endTime := 0,
      allDay := false, color := "", recurrence := "", reminders := "",
      created := 0, modified := 0, etag := "", status := "confirmed",
      cancelled := false }
  let ev := applyStartField ev item.startField
  applyEndField ev item.endField

/-- Orchestrator `fetchGoogleEvents`: items whose status is cancelled are
skipped, every other item is mapped and saved through the store upsert. -/
def fetchGoogleEvents (st : Store) (calendarID : String)
    (items : List GoogleEventItem) : Store :=
  items.foldl (fun acc item =>
    if item.status == "cancelled" then acc
    else acc.saveEvent (fetchGoogleMapItem calendarID item)) st

/-- A concrete response item whose provider status is cancelled. -/
def cancelledItem : GoogleEventItem :=
  { id := "gev-1", summary := "Gone", description := "", location := "",
    status := "cancelled", startField := GTimeField.dateTime 100,
    endField := GTimeField.dateTime 200 }

/-- caldav.go `GetEvents`: decode each returned calendar object through
the codec, silently skipping objects that fail to decode. -/
def caldavGetEvents (objs : List CalendarObject) (calendarID : String) :
    List Event :=
  objs.filterMap (fun obj => parseICalEvent obj calendarID)

/-- main package `syncCalDAVAccount` event loop: every fetched event has
its calendar id set to the calendar being synced and is saved through the
store upsert, cancelled ones included. -/
def syncCalDAVSaveEvents (st : Store) (calID : String)
    (events : List Event) : Store :=
  events.foldl (fun acc e => acc.saveEvent { e with calendarID := calID }) st

/-- Network operations the sync performs, in order. -/
inductive NetOp
  | refreshPost
  | calendarListGet
deriving Repr, DecidableEq

/-- Outcome of the token endpoint POST: a decoded success body, a decoded
error body, or a transport failure. -/
inductive TokenResp
  | ok (accessToken : String) (expiresIn : Int)
  | apiErr (e : String)
  | netFail
deriving Repr, DecidableEq

/-- main package `refreshGoogleToken`: with no refresh token stored it
fails before any network call; otherwise it POSTs to the token endpoint
and, on a decoded success, stores the new access token and the expiry
now plus the returned lifetime and persists the account through the
store; any failure leaves account and store untouched.  Returns the
operations performed, the resulting store, and the refreshed account on
success. -/
def refreshGoogleToken (now : Int) (st : Store) (a : Account)
    (resp : TokenResp) : List NetOp × Store × Option Account :=
  if a.refreshToken = "" then ([], st, none)
  else
    match resp with
    | TokenResp.ok tok lifetime =>
      let a' := { a with accessToken := tok, tokenExpiry := now + lifetime }
      ([NetOp.refreshPost], st.saveAccount a', some a')
    | TokenResp.apiErr _ => ([NetOp.refreshPost], st, none)
    | TokenResp.netFail => ([NetOp.refreshPost], st, none)

/-- main package `syncGoogleCalendarAPI`, up to the calendar-list GET:
when the current instant is strictly past the token expiry the sync first
runs the refresh and aborts if it fails; otherwise (and after a
successful refresh) it issues the calendar-list request.  Returns the
operations performed, the resulting store, and whether the sync aborted
before the calendar-list request. -/
def syncGoogleCalendarAPI (now : Int) (st : Store) (a : Account)
    (resp : TokenResp) : List NetOp × Store × Bool :=
  if now > a.tokenExpiry then
    match refreshGoogleToken now st a resp with
    | (ops, st', some _) => (ops ++ [NetOp.calendarListGet], st', false)
    | (ops, st', none) => (ops, st', true)
  else ([NetOp.calendarListGet], st, false)

/-- An account with an expired token and no refresh token. -/
def expiredNoRefresh : Account :=
  { accA with accountType := "google", tokenExpiry := 50, refreshToken := "" }

/-- An account with an expired token and a stored refresh token. -/
def expiredWithRefresh : Account :=
  { accA with tokenExpiry := 50, refreshToken := "rt" }

/-- The query parameters of a callback request (absent parameter = ""). -/
structure CallbackQuery where
  code : String
  errorParam : String
deriving Repr, DecidableEq

/-- A message delivered to the waiting receiver by a callback handler. -/
inductive CbMsg
  | success (code : String)
  | failure (msg : String)
deriving Repr, DecidableEq

/-- main package `startGoogleOAuth` callback handler: an empty code
parameter always yields the fixed failure message, the error parameter is
never read. -/
def appCallbackHandler (q : CallbackQuery) : CbMsg :=
  if q.code = "" then CbMsg.failure "no code received"
  else CbMsg.success q.code

/-- google package `handleCallback`: an empty code parameter yields a
failure carrying the error parameter (or a fixed message when that is
also empty). -/
def serverHandleCallback (q : CallbackQuery) : CbMsg :=
  if q.code = "" then
    let errMsg := if q.errorParam = "" then "no authorization code received"
      else q.errorParam
    CbMsg.failure ("OAuth error: " ++ errMsg)
  else CbMsg.success q.code

/-- The resolved outcome of the wait. -/
inductive ListenerOutcome
  | code (c : String)
  | err (msg : String)
  | timeout
deriving Repr, DecidableEq

/-- Semantics of the select in `startGoogleOAuth`: the arrivals are the
handler messages in delivery order with their arrival instants; the first
arrival wins when it beats the deadline, otherwise the timeout fires;
later arrivals are never consumed. -/
def resolveListener (arrivals : List (Int × CbMsg)) (deadline : Int) :
    ListenerOutcome :=
  match arrivals with
  | [] => ListenerOutcome.timeout
  | (t, m) :: _ =>
    if t < deadline then
      match m with
      | CbMsg.success c => ListenerOutcome.code c
      | CbMsg.failure e => ListenerOutcome.err e
    else ListenerOutcome.timeout

/-- The 5-minute deadline of `startGoogleOAuth` (seconds after the wait
starts). -/
def oauthTimeout : Int := 5 * 60

/-- The account created by the first-run bootstrap (the seed stands for
the UnixNano read). -/
def bootAccount (seedA : Int) : Account :=
  { id := "acc-" ++ toString seedA, name := "Local", accountType := "local",
    email := "", enabled := true, serverURL := "", username := "",
    accessToken := "", refreshToken := "", tokenExpiry := 0,
    appPassword := "", lastSync := 0 }

/-- The default calendar created by the first-run bootstrap, owned by the
freshly created account. -/
def bootCalendar (seedA seedC : Int) : Calendar :=
  { id := "cal-" ++ toString seedC, accountID := (bootAccount seedA).id,
    name := "My Calendar", description := "", color := "#4285f4",
    visible := true, readOnly := false, syncToken := "", lastSync := 0 }

/-- main package `ensureDefaultCalendar`: when the store holds no
calendars at all, create a fresh local account and a default calendar
owned by it. -/
def ensureDefaultCalendar (st : Store) (seedA seedC : Int) : Store :=
  if st.calendars.isEmpty then
    (st.saveAccount (bootAccount seedA)).saveCalendar (bootCalendar seedA seedC)
  else st

/-- A store that already has one account but no calendars. -/
def accountNoCalendars : Store := ⟨[accA], [], []⟩

/-- Floor division for a positive divisor, written through the Euclidean
remainder so that it is exact integer division. -/
def floorDiv (a b : Int) : Int := (a - a % b) / b

/-- Gregorian leap year test. -/
def isLeapYear (y : Int) : Bool :=
  (y % 4 == 0 && y % 100 != 0) || y % 400 == 0

/-- Length of month m of year y, for m between 1 and 12. -/
def daysInMonth (y m : Int) : Int :=
  if m = 2 then (if isLeapYear y then 29 else 28)
  else if m = 4 ∨ m = 6 ∨ m = 9 ∨ m = 11 then 30
  else 31

/-- Days from January 1 to the first of month m (m between 1 and 12): the
cumulative table Go uses, with the leap-day adjustment from March on. -/
def daysBeforeMonth (y m : Int) : Int :=
  (if m = 1 then 0 else if m = 2 then 31 else if m = 3 then 59
   else if m = 4 then 90 else if m = 5 then 120 else if m = 6 then 151
   else if m = 7 then 181 else if m = 8 then 212 else if m = 9 then 243
   else if m = 10 then 273 else if m = 11 then 304 else 334)
  + (if 3 ≤ m ∧ isLeapYear y = true then 1 else 0)

/-- Days from January 1 of year 1 to January 1 of year y, counting the
leap days of the years before y (proleptic Gregorian). -/
def daysBeforeYear (y : Int) : Int :=
  365 * (y - 1) + floorDiv (y - 1) 4 - floorDiv (y - 1) 100
    + floorDiv (y - 1) 400

/-- Month normalization performed by Go time.Date: an out-of-range month
is shifted into 1..12 and the year adjusted by the carry. -/
def normYM (y m : Int) : Int × Int :=
  (y + floorDiv (m - 1) 12, (m - 1) % 12 + 1)

/-- Day number of the civil fields (y, m, d) under Go time.Date
semantics: the month is normalized and a day outside the month's range
simply adds or removes days. -/
def dateToDay (y m d : Int) : Int :=
  daysBeforeYear (normYM y m).1 + daysBeforeMonth (normYM y m).1 (normYM y m).2
    + (d - 1)

/-- A Go time value by its civil fields: calendar date plus seconds into
the day. -/
structure GoTime where
  year : Int
  month : Int
  day : Int
  sec : Int
deriving Repr, DecidableEq

/-- The instant on the model timeline of a Go time value. -/
def GoTime.instant (t : GoTime) : Int :=
  86400 * dateToDay t.year t.month t.day + t.sec

/-- Go Time.AddDate(dy, dm, dd): add to the civil fields and renormalize;
the clock time is preserved.  Returns the resulting instant. -/
def goAddDate (t : GoTime) (dy dm dd : Int) : Int :=
  86400 * dateToDay (t.year + dy) (t.month + dm) (t.day + dd) + t.sec

/-- The per-calendar event fetch window of the sync:
time.Now().AddDate(0, -1, 0) to time.Now().AddDate(0, 3, 0). -/
def fetchWindow (now : GoTime) : Int × Int :=
  (goAddDate now 0 (-1) 0, goAddDate now 0 3 0)

/-- Length of the month preceding month m of year y. -/
def prevMonthLen (y m : Int) : Int :=
  if m = 1 then daysInMonth (y - 1) 12 else daysInMonth y (m - 1)

/-- Length of month m of year y where m may run past December into the
following year. -/
def monthLenFrom (y m : Int) : Int :=
  if m ≤ 12 then daysInMonth y m else daysInMonth (y + 1) (m - 12)

/-! Theorems. -/

/-- The upserted row is always present after the upsert. -/
theorem mem_upsertBy (key : α → String) (row : α) (l : List α) :
    row ∈ upsertBy key row l := by
  unfold upsertBy
  split
  · next h =>
    obtain ⟨r, hr, hk⟩ := List.any_eq_true.mp h
    exact List.mem_map.mpr ⟨r, hr, by simp [hk]⟩
  · exact List.mem_append_right _ (List.mem_singleton_self row)

/-! Helper lemmas about the upsert semantics. -/
theorem upsertBy_keys_of_any (key : α → String) (row : α) (l : List α)
    (h : l.any (fun r => key r == key row) = true) :
    (upsertBy key row l).map key = l.map key := by
  unfold upsertBy
  rw [if_pos h, List.map_map]
  apply List.map_congr_left
  intro r _
  simp only [Function.comp_apply]
  split
  · next hk => exact (beq_iff_eq.mp hk).symm
  · rfl

theorem upsertBy_keys_nodup (key : α → String) (row : α) (l : List α)
    (h : (l.map key).Nodup) : ((upsertBy key row l).map key).Nodup := by
  by_cases hany : l.any (fun r => key r == key row) = true
  · rw [upsertBy_keys_of_any key row l hany]; exact h
  · unfold upsertBy
    rw [if_neg hany, List.map_append]
    rw [List.nodup_append]
    refine ⟨h, by simp, ?_⟩
    intro x hx hx2
    simp only [List.map_cons, List.map_nil, List.mem_singleton] at hx2
    subst hx2
    obtain ⟨r, hr, hrk⟩ := List.mem_map.mp hx
    exact hany (List.any_eq_true.mpr ⟨r, hr, beq_iff_eq.mpr hrk⟩)

theorem filter_map_replaceBy (key : α → String) (row : α) :
    ∀ l : List α, (l.map key).Nodup → l.any (fun r => key r == key row) = true →
      (l.map (fun r => if key r == key row then row else r)).filter
        (fun r => key r == key row) = [row] := by
  intro l
  induction l with
  | nil => simp
  | cons a t ih =>
    intro hnd hany
    simp only [List.map_cons, List.map_nil, List.nodup_cons] at hnd
    by_cases ha : (key a == key row) = true
    · have hkey : key a = key row := beq_iff_eq.mp ha
      simp only [List.map_cons, if_pos ha]
      rw [List.filter_cons_of_pos (by simp)]
      have htail : (t.map (fun r => if key r == key row then row else r)).filter
          (fun r => key r == key row) = [] := by
        rw [List.filter_eq_nil_iff]
        intro x hx
        obtain ⟨r, hr, hrx⟩ := List.mem_map.mp hx
        have hrk : ¬ key r = key row := by
          intro hc
          exact hnd.1 (hkey ▸ hc ▸ List.mem_map_of_mem key hr)
        rw [if_neg (by simpa using hrk)] at hrx
        subst hrx
        simpa using hrk
      rw [htail]
    · simp only [List.map_cons, if_neg ha]
      rw [List.filter_cons_of_neg (by simpa using ha)]
      have hany' : t.any (fun r => key r == key row) = true := by
        rcases List.any_eq_true.mp hany with ⟨r, hr, hrk⟩
        rcases List.mem_cons.mp hr with h1 | h2
        · exact absurd (h1 ▸ hrk) ha
        · exact List.any_eq_true.mpr ⟨r, h2, hrk⟩
      exact ih hnd.2 hany'

theorem upsertBy_filter_key (key : α → String) (row : α) (l : List α)
    (h : (l.map key).Nodup) :
    (upsertBy key row l).filter (fun r => key r == key row) = [row] := by
  unfold upsertBy
  by_cases hany : l.any (fun r => key r == key row) = true
  · rw [if_pos hany]; exact filter_map_replaceBy key row l h hany
  · rw [if_neg hany, List.filter_append]
    have h1 : l.filter (fun r => key r == key row) = [] := by
      rw [List.filter_eq_nil_iff]
      intro a ha hp
      exact hany (List.any_eq_true.mpr ⟨a, ha, hp⟩)
    rw [h1]
    simp

/-- C2: for every entity, saving an identifier that already exists updates
all non-key fields of that single row in place, so that after a second
write with the same identifier exactly one row with that identifier
remains, carrying the second write's values; and the upsert never touches
the other tables (an account's calendars and events, and a calendar's
events, are left exactly as they were). -/
theorem save_upsert_spec :
    (∀ (st : Store) (a1 a2 : Account), a2.id = a1.id →
      (st.accounts.map (fun r => r.id)).Nodup →
      (((st.saveAccount a1).saveAccount a2).accounts.filter
          (fun r => r.id == a2.id) = [a2]
        ∧ ((st.saveAccount a1).saveAccount a2).calendars = st.calendars
        ∧ ((st.saveAccount a1).saveAccount a2).events = st.events))
    ∧ (∀ (st : Store) (c1 c2 : Calendar), c2.id = c1.id →
      (st.calendars.map (fun r => r.id)).Nodup →
      (((st.saveCalendar c1).saveCalendar c2).calendars.filter
          (fun r => r.id == c2.id) = [c2]
        ∧ ((st.saveCalendar c1).saveCalendar c2).accounts = st.accounts
        ∧ ((st.saveCalendar c1).saveCalendar c2).events = st.events))
    ∧ (∀ (st : Store) (e1 e2 : Event), e2.id = e1.id →
      (st.events.map (fun r => r.id)).Nodup →
      (((st.saveEvent e1).saveEvent e2).events.filter
          (fun r => r.id == e2.id) = [e2]
        ∧ ((st.saveEvent e1).saveEvent e2).accounts = st.accounts
        ∧ ((st.saveEvent e1).saveEvent e2).calendars = st.calendars)) := by
  refine ⟨?_, ?_, ?_⟩
  · intro st a1 a2 _ hnd
    refine ⟨?_, rfl, rfl⟩
    exact upsertBy_filter_key (fun r => r.id) a2 _
      (upsertBy_keys_nodup (fun r => r.id) a1 st.accounts hnd)
  · intro st c1 c2 _ hnd
    refine ⟨?_, rfl, rfl⟩
    exact upsertBy_filter_key (fun r => r.id) c2 _
      (upsertBy_keys_nodup (fun r => r.id) c1 st.calendars hnd)
  · intro st e1 e2 _ hnd
    refine ⟨?_, rfl, rfl⟩
    exact upsertBy_filter_key (fun r => r.id) e2 _
      (upsertBy_keys_nodup (fun r => r.id) e1 st.events hnd)

/-- C2 witness: upserting the same account identifier twice in the empty
store leaves exactly one row carrying the second write's values. -/
theorem save_upsert_spec_witness :
    accB.id = accA.id
      ∧ ((emptyStore.saveAccount accA).saveAccount accB).accounts.filter
          (fun r => r.id == accB.id) = [accB] :=
  ⟨rfl, (save_upsert_spec.1 emptyStore accA accB rfl (by decide)).1⟩

/-- C3: deleting an account removes the account row, every calendar of that
account and every event of those calendars, and nothing else; deleting a
calendar removes that calendar row and exactly the events whose calendar id
matches, leaving sibling calendars and their events (and all accounts)
intact. -/
theorem cascade_delete_spec :
    ∀ (st : Store) (victim : String),
      (∀ a, a ∈ (st.deleteAccount victim).accounts ↔
        a ∈ st.accounts ∧ ¬ a.id = victim)
      ∧ (∀ c, c ∈ (st.deleteAccount victim).calendars ↔
        c ∈ st.calendars ∧ ¬ c.accountID = victim)
      ∧ (∀ ev, ev ∈ (st.deleteAccount victim).events ↔
        ev ∈ st.events ∧
          ¬ ∃ c ∈ st.calendars, c.id = ev.calendarID ∧ c.accountID = victim)
      ∧ (∀ c, c ∈ (st.deleteCalendar victim).calendars ↔
        c ∈ st.calendars ∧ ¬ c.id = victim)
      ∧ (∀ ev, ev ∈ (st.deleteCalendar victim).events ↔
        ev ∈ st.events ∧ ¬ ev.calendarID = victim)
      ∧ (st.deleteCalendar victim).accounts = st.accounts := by
  intro st victim
  refine ⟨?_, ?_, ?_, ?_, ?_, rfl⟩
  · intro a
    simp [Store.deleteAccount, List.mem_filter]
  · intro c
    simp [Store.deleteAccount, List.mem_filter]
  · intro ev
    simp only [Store.deleteAccount, List.mem_filter, Bool.not_eq_true',
      List.any_eq_false, Bool.and_eq_true, beq_iff_eq, not_and]
    constructor
    · rintro ⟨hm, hall⟩
      refine ⟨hm, ?_⟩
      rintro ⟨c, hc, h1, h2⟩
      exact hall c hc h1 h2
    · rintro ⟨hm, hno⟩
      refine ⟨hm, ?_⟩
      intro c hc h1 h2
      exact hno ⟨c, hc, h1, h2⟩
  · intro c
    simp [Store.deleteCalendar, List.mem_filter]
  · intro ev
    simp [Store.deleteCalendar, List.mem_filter]

/-- C3 witness: concrete instance of the cascade characterization. -/
theorem cascade_delete_spec_witness :
    accA ∈ ((Store.mk [accA] [] []).deleteAccount "other").accounts :=
  ((cascade_delete_spec (Store.mk [accA] [] []) "other").1 accA).mpr
    ⟨by decide, by decide⟩

/-- Scanning preserves the start instant of an event row. -/
theorem scanStatus_startTime (e : Event) : (scanStatus e).startTime = e.startTime := by
  unfold scanStatus
  split <;> rfl

/-- Membership characterization of the range query. -/
theorem mem_getEventsInRange (st : Store) (s e : Int) (ev : Event) :
    ev ∈ st.getEventsInRange s e ↔
      ∃ e0 ∈ st.events,
        (e0.cancelled = false ∧ calendarVisible st e0 ∧
          e0.startTime < e ∧ s < e0.endTime) ∧ ev = scanStatus e0 := by
  simp only [Store.getEventsInRange, List.mem_map, List.mem_insertionSort,
    List.mem_filter, Bool.and_eq_true, Bool.not_eq_true', decide_eq_true_eq,
    List.any_eq_true, beq_iff_eq, calendarVisible]
  constructor
  · rintro ⟨e0, ⟨hm, ⟨c, hc, hid, hvis⟩, hcanc, h1, h2⟩, rfl⟩
    exact ⟨e0, hm, ⟨hcanc, ⟨c, hc, hid, hvis⟩, h1, h2⟩, rfl⟩
  · rintro ⟨e0, hm, ⟨hcanc, ⟨c, hc, hid, hvis⟩, h1, h2⟩, rfl⟩
    exact ⟨e0, ⟨hm, ⟨c, hc, hid, hvis⟩, hcanc, h1, h2⟩, rfl⟩

/-- The range query is sorted by start ascending. -/
theorem sorted_getEventsInRange (st : Store) (s e : Int) :
    List.Sorted startLE (st.getEventsInRange s e) := by
  unfold Store.getEventsInRange
  rw [List.Sorted, List.pairwise_map]
  exact (List.sorted_insertionSort startLE _).imp
    (fun h => by simpa [startLE, scanStatus_startTime] using h)

/-- C1: for instants s less than e, the range query returns exactly the
stored rows that are not cancelled, whose owning calendar is visible and
whose interval half-open-overlaps the query, ordered by start ascending
(rows pass through the scan that only normalizes an empty status); the
date query equals the range query over local midnight to midnight plus 24
hours; and an event spanning 2024-06-10T23:00 to 2024-06-11T01:00 is
returned for 2024-06-10 and 2024-06-11 and never for 2024-06-09. -/
theorem getEventsInRange_spec :
    (∀ (st : Store) (s e : Int), s < e →
      (∀ ev, ev ∈ st.getEventsInRange s e ↔
        ∃ e0 ∈ st.events,
          (e0.cancelled = false ∧ calendarVisible st e0 ∧
            e0.startTime < e ∧ s < e0.endTime) ∧ ev = scanStatus e0)
      ∧ List.Sorted startLE (st.getEventsInRange s e))
    ∧ (∀ (st : Store) (d : Int),
        st.getEventsForDate d =
          st.getEventsInRange (dayStart d) (dayStart d + 86400))
    ∧ (juneEvent ∈ juneStore.getEventsForDate (161 * 86400 + 43200)
      ∧ juneEvent ∈ juneStore.getEventsForDate (162 * 86400 + 43200)
      ∧ juneEvent ∉ juneStore.getEventsForDate (160 * 86400 + 43200)) := by
  refine ⟨fun st s e _ => ⟨mem_getEventsInRange st s e, sorted_getEventsInRange st s e⟩,
    fun st d => rfl, by decide, by decide, by decide⟩

/-- C1 witness: the range query characterization at a concrete store and a
concrete nonempty range. -/
theorem getEventsInRange_spec_witness :
    (0 : Int) < 86400 ∧ List.Sorted startLE (juneStore.getEventsInRange 0 86400) :=
  ⟨by decide, (getEventsInRange_spec.1 juneStore 0 86400 (by decide)).2⟩

/-- C10: every event produced by the read operations has a nonempty
status, and a row whose stored status is empty comes back as confirmed. -/
theorem scan_status_default_spec :
    (∀ e : Event, (scanStatus e).status ≠ ""
      ∧ (e.status = "" → (scanStatus e).status = "confirmed"))
    ∧ (∀ (st : Store) (eventID : String) (ev : Event),
        st.getEvent eventID = some ev → ev.status ≠ "")
    ∧ (∀ (st : Store) (calID : String) (ev : Event),
        ev ∈ st.getEventsByCalendar calID → ev.status ≠ "")
    ∧ (∀ (st : Store) (s e : Int) (ev : Event),
        ev ∈ st.getEventsInRange s e → ev.status ≠ "")
    ∧ (∀ (st : Store) (d : Int) (ev : Event),
        ev ∈ st.getEventsForDate d → ev.status ≠ "") := by
  have hscan : ∀ e : Event, (scanStatus e).status ≠ "" := by
    intro e
    unfold scanStatus
    split
    · simp
    · next h => exact h
  refine ⟨fun e => ⟨hscan e, fun h => by simp [scanStatus, h]⟩, ?_, ?_, ?_, ?_⟩
  · intro st eventID ev hev
    obtain ⟨e0, _, rfl⟩ := Option.map_eq_some'.mp hev
    exact hscan e0
  · intro st calID ev hev
    obtain ⟨e0, _, rfl⟩ := List.mem_map.mp hev
    exact hscan e0
  · intro st s e ev hev
    obtain ⟨e0, _, rfl⟩ := List.mem_map.mp hev
    exact hscan e0
  · intro st d ev hev
    obtain ⟨e0, _, rfl⟩ := List.mem_map.mp hev
    exact hscan e0

/-- C10 witness: the June event is returned by the range query and the
theorem yields that its status is nonempty. -/
theorem scan_status_default_spec_witness :
    juneEvent ∈ juneStore.getEventsInRange 0 (200 * 86400)
      ∧ juneEvent.status ≠ "" :=
  ⟨by decide,
    scan_status_default_spec.2.2.2.1 juneStore 0 (200 * 86400) juneEvent (by decide)⟩

theorem dayOf_mul (d : Int) : dayOf (86400 * d) = d := by
  unfold dayOf dayStart
  omega

/-- C5: encoding an event with eventToICal and decoding the result with
parseICalEvent yields an event with the same title, location, description
and all-day flag, and with start and end equal to second precision (equal
as civil dates when the all-day flag is set, since a date-only property
keeps only the date). -/
theorem ical_roundtrip_spec :
    ∀ (e : Event) (now : Int) (etag cid : String),
      ∃ e', parseICalEvent ⟨some (eventToICal now e), etag⟩ cid = some e'
        ∧ e'.title = e.title
        ∧ e'.location = e.location
        ∧ e'.description = e.description
        ∧ e'.allDay = e.allDay
        ∧ (e.allDay = false → e'.startTime = e.startTime ∧ e'.endTime = e.endTime)
        ∧ (e.allDay = true → dayOf e'.startTime = dayOf e.startTime
            ∧ dayOf e'.endTime = dayOf e.endTime) := by
  intro e now etag cid
  by_cases hd : e.description = "" <;> by_cases hl : e.location = "" <;>
    cases had : e.allDay <;>
    by_cases h1 : e.status = "confirmed" <;> by_cases h2 : e.status = "tentative" <;>
    by_cases h3 : e.status = "cancelled" <;>
    simp [parseICalEvent, eventToICal, hd, hl, had, h1, h2, h3, dayOf_mul,
      List.findSome?, ICalTimeValue.instant, ICalTimeValue.isDate]

/-- C5 witness: the round trip at the concrete June event. -/
theorem ical_roundtrip_spec_witness :
    juneEvent.allDay = false
      ∧ ∃ e', parseICalEvent ⟨some (eventToICal 0 juneEvent), "tag"⟩ "cal-june" = some e'
        ∧ e'.startTime = juneEvent.startTime := by
  refine ⟨rfl, ?_⟩
  obtain ⟨e', hp, _, _, _, _, hexact, _⟩ :=
    ical_roundtrip_spec juneEvent 0 "tag" "cal-june"
  exact ⟨e', hp, (hexact rfl).1⟩

/-- C4 counterexample: the google provider package's GetEvents does not
drop a cancelled response item; it maps it into a returned event (with
the cancelled flag set) instead of excluding it. -/
theorem google_cancelled_not_dropped :
    googleGetEvents "cal-g" [cancelledItem] ≠ []
      ∧ (googleGetEvents "cal-g" [cancelledItem]).length = 1
      ∧ ∀ ev ∈ googleGetEvents "cal-g" [cancelledItem],
          ev.cancelled = true ∧ ev.status = "cancelled" := by
  refine ⟨by decide, by decide, ?_⟩
  intro ev hev
  rcases List.mem_singleton.mp hev with rfl
  exact ⟨by decide, by decide⟩

/-- C4 (amended): the sync orchestrator's Google REST event fetch excludes
cancelled items from the persisted result (the store after the fetch is
exactly the fold of upserts of the non-cancelled items), whereas the
google provider package's GetEvents maps a cancelled item into an event
with status cancelled and the cancelled flag set rather than dropping it;
and the CalDAV variant maps a CANCELLED VEVENT to an event with the
cancelled flag set that is returned by the CalDAV fetch and then upserted
into the store by the sync loop. -/
theorem cancelled_event_handling_spec :
    (∀ (st : Store) (calID : String) (items : List GoogleEventItem),
      fetchGoogleEvents st calID items =
        ((items.filter (fun it => !(it.status == "cancelled"))).map
          (fetchGoogleMapItem calID)).foldl Store.saveEvent st)
    ∧ (∀ (calID : String) (item : GoogleEventItem), item.status = "cancelled" →
        (googleRESTMapItem calID item).cancelled = true
          ∧ (googleRESTMapItem calID item).status = "cancelled"
          ∧ (googleGetEvents calID [item]).length = 1)
    ∧ (∀ (v : VEvent) (ver pid etag cid calID : String) (ev : Event) (st : Store),
        v.status = some "CANCELLED" →
        parseICalEvent ⟨some ⟨ver, pid, [ICalComponent.vevent v]⟩, etag⟩ cid = some ev →
        ev.cancelled = true ∧ ev.status = "cancelled"
          ∧ caldavGetEvents [⟨some ⟨ver, pid, [ICalComponent.vevent v]⟩, etag⟩] cid
            = [ev]
          ∧ { ev with calendarID := calID } ∈
              (syncCalDAVSaveEvents st calID [ev]).events
          ∧ ({ ev with calendarID := calID } : Event).cancelled = true) := by
  refine ⟨?_, ?_, ?_⟩
  · intro st calID items
    induction items generalizing st with
    | nil => rfl
    | cons item rest ih =>
      have hstep : fetchGoogleEvents st calID (item :: rest) =
          if item.status = "cancelled" then fetchGoogleEvents st calID rest
          else fetchGoogleEvents
            (st.saveEvent (fetchGoogleMapItem calID item)) calID rest := by
        by_cases hc : item.status = "cancelled" <;> simp [fetchGoogleEvents, hc]
      rw [hstep]
      by_cases hc : item.status = "cancelled"
      · rw [if_pos hc]
        rw [show (item :: rest).filter (fun it => !(it.status == "cancelled")) =
          rest.filter (fun it => !(it.status == "cancelled")) from by
            simp [List.filter_cons, hc]]
        exact ih st
      · rw [if_neg hc]
        rw [show (item :: rest).filter (fun it => !(it.status == "cancelled")) =
          item :: rest.filter (fun it => !(it.status == "cancelled")) from by
            simp [List.filter_cons, hc]]
        rw [List.map_cons, List.foldl_cons]
        exact ih (st.saveEvent (fetchGoogleMapItem calID item))
  · intro calID item hc
    refine ⟨?_, ?_, by simp [googleGetEvents]⟩ <;>
      simp [googleRESTMapItem, hc]
  · intro v ver pid etag cid calID ev st hs hp
    have hcanc : ev.cancelled = true ∧ ev.status = "cancelled" := by
      simp [parseICalEvent, List.findSome?, hs] at hp
      rcases hp with rfl
      constructor <;> rfl
    refine ⟨hcanc.1, hcanc.2, ?_, ?_, ?_⟩
    · simp [caldavGetEvents, hp]
    · exact mem_upsertBy (fun r => r.id) _ st.events
    · exact hcanc.1

/-- C4 witness: the amended characterization applied to the concrete
cancelled response item. -/
theorem cancelled_event_handling_spec_witness :
    cancelledItem.status = "cancelled"
      ∧ (googleRESTMapItem "cal-g" cancelledItem).cancelled = true :=
  ⟨rfl, (cancelled_event_handling_spec.2.1 "cal-g" cancelledItem rfl).1⟩

/-- C6 counterexample: with an expired token but no stored refresh token
the sync performs zero refresh-token POSTs (it aborts before the POST),
not exactly one. -/
theorem refresh_no_post_counterexample :
    10 * 86400 > expiredNoRefresh.tokenExpiry
      ∧ ((syncGoogleCalendarAPI (10 * 86400) emptyStore expiredNoRefresh
          TokenResp.netFail).1.count NetOp.refreshPost = 0)
      ∧ (syncGoogleCalendarAPI (10 * 86400) emptyStore expiredNoRefresh
          TokenResp.netFail).2.2 = true := by
  refine ⟨by decide, by decide, by decide⟩

/-- C6 (amended): past the expiry and with a refresh token stored, exactly
one refresh POST happens and it precedes everything else; a not yet
expired token triggers zero refresh calls and the calendar-list request
directly; a successful refresh stores the new access token and expiry
now plus lifetime and persists the account through the store upsert and
the sync proceeds to the calendar-list request; a refresh failure aborts
the sync before the calendar-list request, and with no refresh token
stored the sync aborts without performing any POST. -/
theorem token_refresh_gating_spec :
    ∀ (now : Int) (st : Store) (a : Account) (resp : TokenResp),
      (now > a.tokenExpiry → ¬ a.refreshToken = "" →
        (syncGoogleCalendarAPI now st a resp).1.count NetOp.refreshPost = 1
          ∧ ∃ rest, (syncGoogleCalendarAPI now st a resp).1 = NetOp.refreshPost :: rest)
      ∧ (¬ now > a.tokenExpiry →
        (syncGoogleCalendarAPI now st a resp).1 = [NetOp.calendarListGet]
          ∧ (syncGoogleCalendarAPI now st a resp).2.1 = st
          ∧ (syncGoogleCalendarAPI now st a resp).2.2 = false)
      ∧ (∀ tok lifetime, now > a.tokenExpiry → ¬ a.refreshToken = "" →
          resp = TokenResp.ok tok lifetime →
        (syncGoogleCalendarAPI now st a resp).2.1 =
            st.saveAccount { a with accessToken := tok, tokenExpiry := now + lifetime }
          ∧ (syncGoogleCalendarAPI now st a resp).1 =
            [NetOp.refreshPost, NetOp.calendarListGet]
          ∧ (syncGoogleCalendarAPI now st a resp).2.2 = false)
      ∧ (now > a.tokenExpiry →
          (a.refreshToken = "" ∨ resp = TokenResp.netFail ∨ ∃ e, resp = TokenResp.apiErr e) →
        (syncGoogleCalendarAPI now st a resp).2.2 = true
          ∧ NetOp.calendarListGet ∉ (syncGoogleCalendarAPI now st a resp).1
          ∧ (syncGoogleCalendarAPI now st a resp).2.1 = st)
      ∧ (now > a.tokenExpiry → a.refreshToken = "" →
        (syncGoogleCalendarAPI now st a resp).1 = []) := by
  intro now st a resp
  refine ⟨?_, ?_, ?_, ?_, ?_⟩
  · intro hexp hrt
    cases resp <;>
      simp [syncGoogleCalendarAPI, refreshGoogleToken, hexp, hrt]
  · intro hexp
    simp [syncGoogleCalendarAPI, hexp]
  · intro tok lifetime hexp hrt hresp
    subst hresp
    simp [syncGoogleCalendarAPI, refreshGoogleToken, hexp, hrt]
  · intro hexp hfail
    rcases hfail with hrt | hresp | ⟨e, hresp⟩
    · simp [syncGoogleCalendarAPI, refreshGoogleToken, hexp, hrt]
    · subst hresp
      by_cases hrt : a.refreshToken = "" <;>
        simp [syncGoogleCalendarAPI, refreshGoogleToken, hexp, hrt]
    · subst hresp
      by_cases hrt : a.refreshToken = "" <;>
        simp [syncGoogleCalendarAPI, refreshGoogleToken, hexp, hrt]
  · intro hexp hrt
    simp [syncGoogleCalendarAPI, refreshGoogleToken, hexp, hrt]

/-- C6 witness: a concrete expired account with a refresh token and a
successful token endpoint response performs exactly one refresh POST. -/
theorem token_refresh_gating_spec_witness :
    (100 : Int) > expiredWithRefresh.tokenExpiry
      ∧ (syncGoogleCalendarAPI 100 emptyStore expiredWithRefresh
          (TokenResp.ok "newtok" 3600)).1.count NetOp.refreshPost = 1 :=
  ⟨by decide,
    ((token_refresh_gating_spec 100 emptyStore expiredWithRefresh
      (TokenResp.ok "newtok" 3600)).1 (by decide) (by decide)).1⟩

/-- C7 counterexample: for the in-app listener (the one with the 5-minute
timeout), a callback carrying error=access_denied resolves the receiver
with the fixed failure message, which does not carry "access_denied"; the
error parameter is ignored entirely. -/
theorem oauth_error_param_dropped :
    resolveListener [(1, appCallbackHandler ⟨"", "access_denied"⟩)] oauthTimeout
        = ListenerOutcome.err "no code received"
      ∧ resolveListener [(1, appCallbackHandler ⟨"", "access_denied"⟩)] oauthTimeout
        ≠ ListenerOutcome.err "access_denied"
      ∧ appCallbackHandler ⟨"", "access_denied"⟩ =
          appCallbackHandler ⟨"", "some_other_error"⟩ := by
  refine ⟨by decide, by decide, by decide⟩

/-- C7 (amended): the listener resolves its waiting receiver with exactly
one of three outcomes, whichever occurs first, and a second callback after
the first resolution is ignored; a request with code=abc123 yields the
captured code "abc123"; no callback before the 5-minute deadline yields
the timeout outcome; a request with error=access_denied yields a failure
result, which for the in-app listener carries the fixed message
"no code received" (the error parameter is not propagated), while the
google package's standalone callback handler does propagate
"access_denied". -/
theorem oauth_listener_spec :
    (∀ (t : Int) (m : CbMsg) (rest : List (Int × CbMsg)) (deadline : Int),
      resolveListener ((t, m) :: rest) deadline =
        resolveListener [(t, m)] deadline)
    ∧ (∀ t deadline rest, t < deadline →
        resolveListener ((t, appCallbackHandler ⟨"abc123", ""⟩) :: rest) deadline =
          ListenerOutcome.code "abc123")
    ∧ (∀ deadline, resolveListener [] deadline = ListenerOutcome.timeout)
    ∧ (∀ t rest, t < oauthTimeout →
        resolveListener ((t, appCallbackHandler ⟨"", "access_denied"⟩) :: rest)
            oauthTimeout = ListenerOutcome.err "no code received")
    ∧ serverHandleCallback ⟨"", "access_denied"⟩ =
        CbMsg.failure "OAuth error: access_denied"
    ∧ (∀ t m rest deadline, ¬ t < deadline →
        resolveListener ((t, m) :: rest) deadline = ListenerOutcome.timeout) := by
  refine ⟨?_, ?_, fun _ => rfl, ?_, by decide, ?_⟩
  · intro t m rest deadline
    rfl
  · intro t deadline rest ht
    simp [resolveListener, appCallbackHandler, ht]
  · intro t rest ht
    simp [resolveListener, appCallbackHandler, ht]
  · intro t m rest deadline ht
    simp [resolveListener, ht]

/-- C7 witness: a code callback arriving at second 1 resolves to the
captured code before the 5-minute deadline. -/
theorem oauth_listener_spec_witness :
    (1 : Int) < oauthTimeout
      ∧ resolveListener [(1, appCallbackHandler ⟨"abc123", ""⟩)] oauthTimeout =
        ListenerOutcome.code "abc123" :=
  ⟨by decide, oauth_listener_spec.2.1 1 oauthTimeout [] (by decide)⟩

/-- C9 counterexample: with one account already present but no calendars,
the bootstrap still creates a new local account, so creation is not
conditioned on the absence of accounts. -/
theorem bootstrap_counterexample :
    accountNoCalendars.accounts ≠ []
      ∧ (ensureDefaultCalendar accountNoCalendars 7 8).accounts.length = 2 := by
  refine ⟨by decide, by decide⟩

/-- C9 (amended): the bootstrap creates one new local account together
with a default calendar owned by it if and only if no calendars exist in
the store (the presence of accounts is not consulted); when calendars
exist the store is left untouched. -/
theorem bootstrap_spec :
    ∀ (st : Store) (seedA seedC : Int),
      (st.calendars = [] →
        (∃ acc, acc ∈ (ensureDefaultCalendar st seedA seedC).accounts
            ∧ acc.accountType = "local" ∧ acc.id = "acc-" ++ toString seedA
            ∧ ∃ cal, cal ∈ (ensureDefaultCalendar st seedA seedC).calendars
              ∧ cal.accountID = acc.id ∧ cal.name = "My Calendar")
          ∧ (ensureDefaultCalendar st seedA seedC).calendars.length = 1)
      ∧ (st.calendars ≠ [] → ensureDefaultCalendar st seedA seedC = st) := by
  intro st seedA seedC
  constructor
  · intro hempty
    have hif : st.calendars.isEmpty = true := by simp [hempty]
    have hacc : bootAccount seedA ∈ (ensureDefaultCalendar st seedA seedC).accounts := by
      simp only [ensureDefaultCalendar, hif, if_pos]
      exact mem_upsertBy (fun r => r.id) (bootAccount seedA) st.accounts
    have hcals : (ensureDefaultCalendar st seedA seedC).calendars =
        [bootCalendar seedA seedC] := by
      simp [ensureDefaultCalendar, hif, Store.saveCalendar, Store.saveAccount,
        upsertBy, hempty]
    refine ⟨⟨bootAccount seedA, hacc, rfl, rfl,
      bootCalendar seedA seedC, ?_, rfl, rfl⟩, ?_⟩
    · rw [hcals]
      exact List.mem_singleton_self _
    · rw [hcals]
      rfl
  · intro hne
    have hif : st.calendars.isEmpty = false := by
      simpa [List.isEmpty_iff] using hne
    simp [ensureDefaultCalendar, hif]

/-- C9 witness: the amended characterization at the concrete store with
an account and no calendars. -/
theorem bootstrap_spec_witness :
    accountNoCalendars.calendars = []
      ∧ (ensureDefaultCalendar accountNoCalendars 7 8).calendars.length = 1 :=
  ⟨rfl, ((bootstrap_spec accountNoCalendars 7 8).1 rfl).2⟩

/-- C8 counterexample: at now = 2024-03-31T12:00 the fetch window start
is 2024-03-02T12:00 (one calendar month back, normalized), not
now minus 30 days, which is 2024-03-01T12:00. -/
theorem fetch_window_counterexample :
    (fetchWindow ⟨2024, 3, 31, 43200⟩).1 ≠
        GoTime.instant ⟨2024, 3, 31, 43200⟩ - 30 * 86400
      ∧ (fetchWindow ⟨2024, 3, 31, 43200⟩).1 =
        GoTime.instant ⟨2024, 3, 2, 43200⟩
      ∧ GoTime.instant ⟨2024, 3, 31, 43200⟩ - 30 * 86400 =
        GoTime.instant ⟨2024, 3, 1, 43200⟩ := by
  refine ⟨by decide, by decide, by decide⟩

theorem normYM_id (y m : Int) (h1 : 1 ≤ m) (h2 : m ≤ 12) : normYM y m = (y, m) := by
  unfold normYM floorDiv
  rw [Prod.mk.injEq]
  omega

theorem dateToDay_prevMonth (y m d : Int) (h1 : 1 ≤ m) (h2 : m ≤ 12) :
    dateToDay y (m - 1) d = dateToDay y m d - prevMonthLen y m := by
  by_cases hm : m = 1
  · subst hm
    simp [dateToDay, normYM, floorDiv, prevMonthLen, daysBeforeYear,
      daysBeforeMonth, daysInMonth, isLeapYear,
      Bool.or_eq_true, Bool.and_eq_true, beq_iff_eq, bne_iff_ne]
    omega
  · rw [dateToDay, dateToDay, normYM_id y (m-1) (by omega) (by omega),
      normYM_id y m h1 h2]
    have hpm : prevMonthLen y m = daysInMonth y (m - 1) := by
      rw [prevMonthLen, if_neg hm]
    rw [hpm]
    interval_cases m <;>
      simp [daysBeforeMonth, daysInMonth, isLeapYear,
        Bool.or_eq_true, Bool.and_eq_true, beq_iff_eq, bne_iff_ne] <;>
      omega

theorem dateToDay_plus3 (y m d : Int) (h1 : 1 ≤ m) (h2 : m ≤ 12) :
    dateToDay y (m + 3) d = dateToDay y m d
      + (monthLenFrom y m + monthLenFrom y (m + 1) + monthLenFrom y (m + 2)) := by
  rw [dateToDay, dateToDay, normYM_id y m h1 h2]
  interval_cases m <;>
    simp [normYM, floorDiv, daysBeforeYear, daysBeforeMonth, daysInMonth,
      monthLenFrom, isLeapYear,
      Bool.or_eq_true, Bool.and_eq_true, beq_iff_eq, bne_iff_ne] <;>
    omega

theorem daysInMonth_bounds (y m : Int) :
    28 ≤ daysInMonth y m ∧ daysInMonth y m ≤ 31 := by
  unfold daysInMonth
  split_ifs <;> omega

theorem prevMonthLen_bounds (y m : Int) :
    28 ≤ prevMonthLen y m ∧ prevMonthLen y m ≤ 31 := by
  unfold prevMonthLen
  split_ifs <;> exact daysInMonth_bounds _ _

theorem monthLenFrom_bounds (y m : Int) :
    28 ≤ monthLenFrom y m ∧ monthLenFrom y m ≤ 31 := by
  unfold monthLenFrom
  split_ifs <;> exact daysInMonth_bounds _ _

theorem monthLen_sum3_bounds (y m : Int) (h1 : 1 ≤ m) (h2 : m ≤ 12) :
    89 ≤ monthLenFrom y m + monthLenFrom y (m + 1) + monthLenFrom y (m + 2)
      ∧ monthLenFrom y m + monthLenFrom y (m + 1) + monthLenFrom y (m + 2) ≤ 92 := by
  interval_cases m <;>
    simp [monthLenFrom, daysInMonth, isLeapYear,
      Bool.or_eq_true, Bool.and_eq_true, beq_iff_eq, bne_iff_ne] <;>
    omega

/-- C8 (amended): the per-calendar event fetch requests the window from
AddDate(0, -1, 0) to AddDate(0, 3, 0) of the current instant, i.e. one
calendar month back to three calendar months ahead with the clock time
preserved: the window start is now minus the length of the previous
calendar month (between 28 and 31 days, so not always 30), and the window
end is now plus the summed lengths of the next three calendar months
(between 89 and 92 days, so not always 90). -/
theorem fetch_window_spec :
    ∀ t : GoTime, 1 ≤ t.month → t.month ≤ 12 →
      ((fetchWindow t).1 = t.instant - 86400 * prevMonthLen t.year t.month
        ∧ (fetchWindow t).2 = t.instant + 86400 * (monthLenFrom t.year t.month
            + monthLenFrom t.year (t.month + 1)
            + monthLenFrom t.year (t.month + 2))
        ∧ t.instant - 31 * 86400 ≤ (fetchWindow t).1
        ∧ (fetchWindow t).1 ≤ t.instant - 28 * 86400
        ∧ t.instant + 89 * 86400 ≤ (fetchWindow t).2
        ∧ (fetchWindow t).2 ≤ t.instant + 92 * 86400) := by
  rintro ⟨y, m, d, sec⟩ h1 h2
  simp only at h1 h2 ⊢
  have hA := dateToDay_prevMonth y m d h1 h2
  have hB := dateToDay_plus3 y m d h1 h2
  have c1 : (fetchWindow ⟨y, m, d, sec⟩).1 =
      GoTime.instant ⟨y, m, d, sec⟩ - 86400 * prevMonthLen y m := by
    simp only [fetchWindow, goAddDate, GoTime.instant]
    rw [show y + 0 = y from by ring, show m + -1 = m - 1 from by ring,
      show d + 0 = d from by ring, hA]
    ring
  have c2 : (fetchWindow ⟨y, m, d, sec⟩).2 =
      GoTime.instant ⟨y, m, d, sec⟩ + 86400 * (monthLenFrom y m
        + monthLenFrom y (m + 1) + monthLenFrom y (m + 2)) := by
    simp only [fetchWindow, goAddDate, GoTime.instant]
    rw [show y + 0 = y from by ring, show d + 0 = d from by ring, hB]
    ring
  have b1 := prevMonthLen_bounds y m
  have b2 := monthLenFrom_bounds y m
  have b3 := monthLenFrom_bounds y (m + 1)
  have b4 := monthLenFrom_bounds y (m + 2)
  have b5 := monthLen_sum3_bounds y m h1 h2
  refine ⟨c1, c2, ?_, ?_, ?_, ?_⟩ <;> omega

/-- C8 witness: the window characterization at now = 2024-06-15T00:00
(the previous month, May, has 31 days). -/
theorem fetch_window_spec_witness :
    (1 : Int) ≤ (GoTime.mk 2024 6 15 0).month
      ∧ (GoTime.mk 2024 6 15 0).month ≤ 12
      ∧ (fetchWindow ⟨2024, 6, 15, 0⟩).1 =
        GoTime.instant ⟨2024, 6, 15, 0⟩ - 86400 * prevMonthLen 2024 6 :=
  ⟨by decide, by decide,
    (fetch_window_spec ⟨2024, 6, 15, 0⟩ (by decide) (by decide)).1⟩

end Switchcal


